import Mathlib

/-!
Shallow embedding of the `dma` integer number-theory library (src/src/lib.rs).

Rust's `i64` is modelled as `ℤ`; Rust's `%` (truncating remainder) is
`Int.tmod`, Rust's `/` (truncating division) is `Int.tdiv`, and `i64::abs`
is `|·|` on `ℤ`.  Rust while-loops become well-founded recursion, and the
two `Iterator` implementations become explicit `Option`-state step
functions advanced by `stateAt`.
-/

namespace Dma

/-- `divides` from src/src/lib.rs: `if a != 0 { b % a == 0 } else { true }`. -/
def divides (a b : ℤ) : Bool :=
  if a ≠ 0 then Int.tmod b a == 0 else true

/-- `is_divisible_by` from src/src/lib.rs: `divides(b, a)`. -/
def is_divisible_by (a b : ℤ) : Bool :=
  divides b a

/-- `is_common_divisor` from src/src/lib.rs. -/
def is_common_divisor (d a b : ℤ) : Bool :=
  divides d a && divides d b

/-- `is_common_multiple` from src/src/lib.rs. -/
def is_common_multiple (d a b : ℤ) : Bool :=
  divides a d && divides b d

/-- `gcd_euclid` from src/src/lib.rs: `while b != 0 { let r = a % b; (a, b) = (b, r); } a`. -/
def gcd_euclid (a b : ℤ) : ℤ :=
  if b = 0 then a
  else gcd_euclid b (Int.tmod a b)
termination_by b.natAbs
decreasing_by
  have habs : ∀ x y : ℤ, (Int.tmod x y).natAbs = x.natAbs % y.natAbs := by
    intro x y
    cases x <;> cases y <;> simp only [Int.tmod] <;>
      first
        | rfl
        | (rw [Int.natAbs_neg]; rfl)
  rw [habs]
  exact Nat.mod_lt _ (Int.natAbs_pos.mpr (by assumption))

/-- `gcd_noabs` from src/src/lib.rs, the guarded `match (a, b)` translated to
an if-chain in the same order. -/
def gcd_noabs (a b : ℤ) : ℤ :=
  if a = 0 ∧ b = 0 then 0
  else if b = 0 then a
  else if a = 0 then b
  else if a > b then gcd_euclid a b
  else if a < b then gcd_euclid b a
  else a

/-- `gcd` from src/src/lib.rs: `gcd_noabs(a.abs(), b.abs())`. -/
def gcd (a b : ℤ) : ℤ :=
  gcd_noabs |a| |b|

/-- `lcm` from src/src/lib.rs: `0` when either argument is `0`, otherwise
`(a.abs() * b.abs()) / gcd_noabs(a.abs(), b.abs())`. -/
def lcm (a b : ℤ) : ℤ :=
  if a = 0 ∨ b = 0 then 0
  else Int.tdiv (|a| * |b|) (gcd_noabs |a| |b|)

/-- `GcdExtendedResult` struct from src/src/lib.rs. -/
structure GcdExtendedResult where
  gcd : ℤ
  x0 : ℤ
  y0 : ℤ
  x1 : ℤ
  y1 : ℤ
deriving DecidableEq

/-- The `while b != 0` loop of `gcd_extended_bezout` from src/src/lib.rs,
with the four running coefficients as explicit parameters. -/
def gcd_extended_bezout_loop (a b a0 a1 b0 b1 : ℤ) : GcdExtendedResult :=
  if b = 0 then { gcd := a, x0 := a0, y0 := b0, x1 := a1, y1 := b1 }
  else
    gcd_extended_bezout_loop b (a - b * Int.tdiv a b)
      a1 (a0 - Int.tdiv a b * a1) b1 (b0 - Int.tdiv a b * b1)
termination_by b.natAbs
decreasing_by
  rw [← Int.tmod_def]
  have habs : ∀ x y : ℤ, (Int.tmod x y).natAbs = x.natAbs % y.natAbs := by
    intro x y
    cases x <;> cases y <;> simp only [Int.tmod] <;>
      first
        | rfl
        | (rw [Int.natAbs_neg]; rfl)
  rw [habs]
  exact Nat.mod_lt _ (Int.natAbs_pos.mpr (by assumption))

/-- `gcd_extended_bezout` from src/src/lib.rs: runs the loop from
coefficients `(a0, a1, b0, b1) = (1, 0, 0, 1)`. -/
def gcd_extended_bezout (a b : ℤ) : GcdExtendedResult :=
  gcd_extended_bezout_loop a b 1 0 0 1

/-- `gcd_extended_noabs` from src/src/lib.rs, the guarded `match (a, b)`
translated to an if-chain in the same order. -/
def gcd_extended_noabs (a b : ℤ) : GcdExtendedResult :=
  if a = 0 ∧ b = 0 then { gcd := 0, x0 := 0, y0 := 0, x1 := 0, y1 := 0 }
  else if b = 0 then { gcd := a, x0 := 1, y0 := 0, x1 := 0, y1 := 0 }
  else if a = 0 then { gcd := b, x0 := 0, y0 := 1, x1 := 0, y1 := 0 }
  else if a > b then gcd_extended_bezout a b
  else if a < b then
    let res := gcd_extended_bezout b a
    { gcd := res.gcd, x0 := res.y0, y0 := res.x0, x1 := res.y1, y1 := res.x1 }
  else { gcd := a, x0 := 1, y0 := 0, x1 := -1, y1 := 1 }

/-- `gcd_extended` from src/src/lib.rs: run on `(|a|, |b|)`, then flip the
signs of `x0, x1` when `a < 0` and of `y0, y1` when `b < 0`. -/
def gcd_extended (a b : ℤ) : GcdExtendedResult :=
  let res0 := gcd_extended_noabs |a| |b|
  let res1 := if a < 0 then { res0 with x0 := -res0.x0, x1 := -res0.x1 } else res0
  if b < 0 then { res1 with y0 := -res1.y0, y1 := -res1.y1 } else res1

/-- `GcdIteration` struct from src/src/lib.rs. -/
structure GcdIteration where
  a : ℤ
  b : ℤ
deriving DecidableEq

/-- The state-update `match (i.a, i.b)` inside `GcdIterator::next`
(src/src/lib.rs), arms in source order. -/
def gcd_iterator_step (i : GcdIteration) : Option GcdIteration :=
  if i.a < 0 ∨ i.b < 0 then some { a := |i.a|, b := |i.b| }
  else if i.b = 0 then none
  else if i.a < i.b then some { a := i.b, b := i.a }
  else some { a := i.b, b := Int.tmod i.a i.b }

/-- `GcdIterator` struct from src/src/lib.rs: an optional current state. -/
structure GcdIterator where
  i : Option GcdIteration
deriving DecidableEq

/-- `GcdIterator::new` from src/src/lib.rs. -/
def GcdIterator.new (a b : ℤ) : GcdIterator :=
  { i := some { a := a, b := b } }

/-- `GcdIterator::next` from src/src/lib.rs: yields the current state and
advances the internal state by `gcd_iterator_step`. -/
def GcdIterator.next (it : GcdIterator) : Option GcdIteration × GcdIterator :=
  (it.i, { i := Option.bind it.i gcd_iterator_step })

/-- The internal state of a `GcdIterator` after `n` calls to `next`; the
`n`-th call to `next` yields `stateAt it n` (`none` once exhausted). -/
def GcdIterator.stateAt (it : GcdIterator) : ℕ → Option GcdIteration
  | 0 => it.i
  | n + 1 => Option.bind (it.stateAt n) gcd_iterator_step

/-- `GcdExtendedIteration` struct from src/src/lib.rs. -/
structure GcdExtendedIteration where
  a : ℤ
  b : ℤ
  a0 : ℤ
  a1 : ℤ
  b0 : ℤ
  b1 : ℤ
  q : ℤ
deriving DecidableEq

/-- `GcdExtendedIteration::new` from src/src/lib.rs: take magnitudes, swap
so that `a >= b`, seed coefficients `(1, 0, 0, 1)` and `q = 0`. -/
def GcdExtendedIteration.new (a b : ℤ) : GcdExtendedIteration :=
  if |a| < |b| then { a := |b|, b := |a|, a0 := 1, a1 := 0, b0 := 0, b1 := 1, q := 0 }
  else { a := |a|, b := |b|, a0 := 1, a1 := 0, b0 := 0, b1 := 1, q := 0 }

/-- The state-update inside `GcdExtendedIterator::next` (src/src/lib.rs). -/
def gcd_extended_iterator_step (i : GcdExtendedIteration) : Option GcdExtendedIteration :=
  if i.b = 0 then none
  else
    some { a := i.b, b := i.a - i.b * Int.tdiv i.a i.b,
           a0 := i.a1, a1 := i.a0 - Int.tdiv i.a i.b * i.a1,
           b0 := i.b1, b1 := i.b0 - Int.tdiv i.a i.b * i.b1,
           q := Int.tdiv i.a i.b }

/-- `GcdExtendedIterator` struct from src/src/lib.rs. -/
structure GcdExtendedIterator where
  i : Option GcdExtendedIteration
deriving DecidableEq

/-- `GcdExtendedIterator::new` from src/src/lib.rs. -/
def GcdExtendedIterator.new (a b : ℤ) : GcdExtendedIterator :=
  { i := some (GcdExtendedIteration.new a b) }

/-- `GcdExtendedIterator::next` from src/src/lib.rs. -/
def GcdExtendedIterator.next (it : GcdExtendedIterator) :
    Option GcdExtendedIteration × GcdExtendedIterator :=
  (it.i, { i := Option.bind it.i gcd_extended_iterator_step })

/-- The internal state of a `GcdExtendedIterator` after `n` calls to `next`. -/
def GcdExtendedIterator.stateAt (it : GcdExtendedIterator) : ℕ → Option GcdExtendedIteration
  | 0 => it.i
  | n + 1 => Option.bind (it.stateAt n) gcd_extended_iterator_step

/-- Termination measure for the plain iterator: twice the magnitude sum,
plus a tag that drops across the sign-normalization and swap steps. -/
def gcd_iteration_measure (s : GcdIteration) : ℕ :=
  2 * (s.a.natAbs + s.b.natAbs) +
    (if s.a < 0 ∨ s.b < 0 then 3 else if s.a < s.b then 1 else 0)

/-- The magnitude of a truncating remainder is the remainder of the magnitudes. -/
theorem natAbs_tmod (x y : ℤ) : (Int.tmod x y).natAbs = x.natAbs % y.natAbs := by
  cases x <;> cases y <;> simp only [Int.tmod] <;>
    first
      | rfl
      | (rw [Int.natAbs_neg]; rfl)

/-- The truncating remainder strictly shrinks the magnitude of a nonzero divisor. -/
theorem tmod_natAbs_lt (x : ℤ) {y : ℤ} (h : y ≠ 0) : (Int.tmod x y).natAbs < y.natAbs := by
  rw [natAbs_tmod]
  exact Nat.mod_lt _ (Int.natAbs_pos.mpr h)

theorem gcd_euclid_eq_gcd_aux :
    ∀ (n : ℕ) (a b : ℤ), b.natAbs = n → 0 ≤ a → 0 ≤ b → gcd_euclid a b = Int.gcd a b := by
  intro n
  induction n using Nat.strong_induction_on with
  | _ n ih =>
    intro a b hn ha hb
    rw [gcd_euclid]
    by_cases hb0 : b = 0
    · simp only [hb0, if_pos rfl]
      rw [Int.gcd]
      simp [Int.natAbs_of_nonneg ha]
    · rw [if_neg hb0]
      have hlt : (Int.tmod a b).natAbs < n := hn ▸ tmod_natAbs_lt a hb0
      rw [ih _ hlt b (Int.tmod a b) rfl hb (Int.tmod_nonneg b ha)]
      rw [Int.gcd, Int.gcd, natAbs_tmod]
      rw [Nat.gcd_comm b.natAbs, ← Nat.gcd_rec, Nat.gcd_comm]

/-- On nonnegative inputs the Euclid loop computes the mathematical gcd. -/
theorem gcd_euclid_eq_gcd (a b : ℤ) (ha : 0 ≤ a) (hb : 0 ≤ b) :
    gcd_euclid a b = Int.gcd a b :=
  gcd_euclid_eq_gcd_aux b.natAbs a b rfl ha hb

/-- On nonnegative inputs `gcd_noabs` computes the mathematical gcd. -/
theorem gcd_noabs_eq_gcd (a b : ℤ) (ha : 0 ≤ a) (hb : 0 ≤ b) :
    gcd_noabs a b = Int.gcd a b := by
  unfold gcd_noabs
  split_ifs with h1 h2 h3 h4 h5
  · simp [h1.1, h1.2, Int.gcd]
  · rw [h2, Int.gcd]
    simp [Int.natAbs_of_nonneg ha]
  · rw [h3, Int.gcd]
    simp [Int.natAbs_of_nonneg hb]
  · exact gcd_euclid_eq_gcd a b ha hb
  · rw [gcd_euclid_eq_gcd b a hb ha, Int.gcd, Int.gcd, Nat.gcd_comm]
  · have hab : a = b := le_antisymm (not_lt.mp h4) (not_lt.mp h5)
    rw [hab, Int.gcd]
    simp [Int.natAbs_of_nonneg hb]

/-- `gcd` computes the mathematical gcd of its raw (signed) inputs. -/
theorem gcd_eq_intGcd (a b : ℤ) : Dma.gcd a b = Int.gcd a b := by
  rw [Dma.gcd, gcd_noabs_eq_gcd |a| |b| (abs_nonneg a) (abs_nonneg b), Int.gcd, Int.gcd]
  simp [Int.natAbs_abs]

theorem gcd_extended_bezout_loop_gcd_aux :
    ∀ (n : ℕ) (a b a0 a1 b0 b1 : ℤ), b.natAbs = n →
      (gcd_extended_bezout_loop a b a0 a1 b0 b1).gcd = gcd_euclid a b := by
  intro n
  induction n using Nat.strong_induction_on with
  | _ n ih =>
    intro a b a0 a1 b0 b1 hn
    rw [gcd_extended_bezout_loop, gcd_euclid]
    by_cases hb0 : b = 0
    · simp [hb0]
    · rw [if_neg hb0, if_neg hb0]
      rw [(Int.tmod_def a b).symm]
      have hlt : (Int.tmod a b).natAbs < n := hn ▸ tmod_natAbs_lt a hb0
      exact ih _ hlt b (Int.tmod a b) _ _ _ _ rfl

/-- The extended loop's `gcd` field agrees with the plain Euclid loop. -/
theorem gcd_extended_bezout_gcd (a b : ℤ) :
    (gcd_extended_bezout a b).gcd = gcd_euclid a b := by
  unfold gcd_extended_bezout
  exact gcd_extended_bezout_loop_gcd_aux b.natAbs a b 1 0 0 1 rfl

theorem gcd_extended_bezout_loop_invariant :
    ∀ (n : ℕ) (A B a b a0 a1 b0 b1 : ℤ), b.natAbs = n →
      a = a0 * A + b0 * B → b = a1 * A + b1 * B →
      (gcd_extended_bezout_loop a b a0 a1 b0 b1).gcd =
          (gcd_extended_bezout_loop a b a0 a1 b0 b1).x0 * A +
            (gcd_extended_bezout_loop a b a0 a1 b0 b1).y0 * B ∧
        0 = (gcd_extended_bezout_loop a b a0 a1 b0 b1).x1 * A +
            (gcd_extended_bezout_loop a b a0 a1 b0 b1).y1 * B := by
  intro n
  induction n using Nat.strong_induction_on with
  | _ n ih =>
    intro A B a b a0 a1 b0 b1 hn ha hb
    rw [gcd_extended_bezout_loop]
    by_cases hb0 : b = 0
    · subst hb0
      rw [if_pos rfl]
      exact ⟨ha, hb⟩
    · rw [if_neg hb0]
      have hlt : (a - b * Int.tdiv a b).natAbs < n := by
        rw [← Int.tmod_def]
        exact hn ▸ tmod_natAbs_lt a hb0
      exact ih _ hlt A B b (a - b * Int.tdiv a b) a1 (a0 - Int.tdiv a b * a1)
        b1 (b0 - Int.tdiv a b * b1) rfl hb
        (by linear_combination ha - Int.tdiv a b * hb)

/-- Both Bezout identities for the core coefficient-tracking loop started
from the identity coefficient matrix. -/
theorem gcd_extended_bezout_identity (a b : ℤ) :
    (gcd_extended_bezout a b).gcd =
        (gcd_extended_bezout a b).x0 * a + (gcd_extended_bezout a b).y0 * b ∧
      0 = (gcd_extended_bezout a b).x1 * a + (gcd_extended_bezout a b).y1 * b := by
  unfold gcd_extended_bezout
  exact gcd_extended_bezout_loop_invariant b.natAbs a b a b 1 0 0 1 rfl (by ring) (by ring)

/-- The `gcd` field of `gcd_extended_noabs` agrees with `gcd_noabs`. -/
theorem gcd_extended_noabs_gcd (a b : ℤ) :
    (gcd_extended_noabs a b).gcd = gcd_noabs a b := by
  unfold gcd_extended_noabs gcd_noabs
  split_ifs <;> simp [gcd_extended_bezout_gcd]

/-- Both Bezout identities for `gcd_extended_noabs`, at arbitrary inputs. -/
theorem gcd_extended_noabs_identity (a b : ℤ) :
    (gcd_extended_noabs a b).gcd =
        (gcd_extended_noabs a b).x0 * a + (gcd_extended_noabs a b).y0 * b ∧
      0 = (gcd_extended_noabs a b).x1 * a + (gcd_extended_noabs a b).y1 * b := by
  unfold gcd_extended_noabs
  split_ifs with h1 h2 h3 h4 h5
  · simp
  · constructor <;> ring
  · constructor <;> ring
  · exact gcd_extended_bezout_identity a b
  · obtain ⟨i1, i2⟩ := gcd_extended_bezout_identity b a
    exact ⟨by linear_combination i1, by linear_combination i2⟩
  · have hab : a = b := le_antisymm (not_lt.mp h4) (not_lt.mp h5)
    exact ⟨by ring, by linear_combination hab⟩

/-- The plain iterator's step yields `none` only from a state with `b = 0`. -/
theorem gcd_iterator_step_none {s : GcdIteration} (h : gcd_iterator_step s = none) :
    s.b = 0 := by
  unfold gcd_iterator_step at h
  split_ifs at h with h1 h2 h3
  all_goals simp_all

/-- Every productive step of the plain iterator strictly decreases the measure. -/
theorem gcd_iterator_step_measure {s t : GcdIteration} (h : gcd_iterator_step s = some t) :
    gcd_iteration_measure t < gcd_iteration_measure s := by
  unfold gcd_iterator_step at h
  split_ifs at h with h1 h2 h3
  · injection h with h4
    subst h4
    have n1 := abs_nonneg s.a
    have n2 := abs_nonneg s.b
    simp only [gcd_iteration_measure, Int.natAbs_abs]
    split_ifs <;> omega
  · injection h with h4
    subst h4
    simp only [gcd_iteration_measure]
    split_ifs <;> omega
  · injection h with h4
    subst h4
    push_neg at h1
    have n3 : 0 ≤ Int.tmod s.a s.b := Int.tmod_nonneg s.b h1.1
    have m1 : s.a.natAbs % s.b.natAbs < s.b.natAbs :=
      Nat.mod_lt _ (Int.natAbs_pos.mpr h2)
    have m2 : s.b.natAbs ≤ s.a.natAbs := by omega
    simp only [gcd_iteration_measure, natAbs_tmod]
    split_ifs <;> omega

theorem gcd_iterator_stateAt_shift (x : Option GcdIteration) (n : ℕ) :
    GcdIterator.stateAt { i := Option.bind x gcd_iterator_step } n =
      GcdIterator.stateAt { i := x } (n + 1) := by
  induction n with
  | zero => rfl
  | succ n ih => simp only [GcdIterator.stateAt, ih]

theorem gcd_iterator_stateAt_none {it : GcdIterator} {n : ℕ}
    (h : it.stateAt n = none) (m : ℕ) : it.stateAt (n + m) = none := by
  induction m with
  | zero => exact h
  | succ m ih =>
    show it.stateAt ((n + m) + 1) = none
    rw [GcdIterator.stateAt, ih]
    rfl

theorem gcd_iterator_term_aux :
    ∀ (k : ℕ) (s : GcdIteration), gcd_iteration_measure s < k →
      ∃ (n : ℕ) (t : GcdIteration),
        GcdIterator.stateAt { i := some s } n = some t ∧ t.b = 0 ∧
          GcdIterator.stateAt { i := some s } (n + 1) = none := by
  intro k
  induction k with
  | zero => exact fun s hs => absurd hs (Nat.not_lt_zero _)
  | succ k ih =>
    intro s hs
    cases hstep : gcd_iterator_step s with
    | none =>
      refine ⟨0, s, rfl, gcd_iterator_step_none hstep, ?_⟩
      simp [GcdIterator.stateAt, hstep]
    | some t =>
      obtain ⟨n, u, h1, h2, h3⟩ :=
        ih t (by have := gcd_iterator_step_measure hstep; omega)
      have hx : ({ i := Option.bind (some s) gcd_iterator_step } : GcdIterator) =
          { i := some t } := by simp [hstep]
      refine ⟨n + 1, u, ?_, h2, ?_⟩
      · rw [← gcd_iterator_stateAt_shift (some s) n, hx]
        exact h1
      · rw [← gcd_iterator_stateAt_shift (some s) (n + 1), hx]
        exact h3

/-- The extended iterator's step yields `none` exactly from a state with `b = 0`. -/
theorem gcd_extended_iterator_step_none {s : GcdExtendedIteration}
    (h : gcd_extended_iterator_step s = none) : s.b = 0 := by
  unfold gcd_extended_iterator_step at h
  split_ifs at h with h1
  all_goals simp_all

/-- Every productive step of the extended iterator strictly shrinks `|b|`. -/
theorem gcd_extended_iterator_step_measure {s t : GcdExtendedIteration}
    (h : gcd_extended_iterator_step s = some t) : t.b.natAbs < s.b.natAbs := by
  unfold gcd_extended_iterator_step at h
  split_ifs at h with h1
  injection h with h4
  subst h4
  show (s.a - s.b * Int.tdiv s.a s.b).natAbs < s.b.natAbs
  rw [← Int.tmod_def]
  exact tmod_natAbs_lt s.a h1

theorem gcd_extended_iterator_stateAt_shift (x : Option GcdExtendedIteration) (n : ℕ) :
    GcdExtendedIterator.stateAt { i := Option.bind x gcd_extended_iterator_step } n =
      GcdExtendedIterator.stateAt { i := x } (n + 1) := by
  induction n with
  | zero => rfl
  | succ n ih => simp only [GcdExtendedIterator.stateAt, ih]

theorem gcd_extended_iterator_stateAt_none {it : GcdExtendedIterator} {n : ℕ}
    (h : it.stateAt n = none) (m : ℕ) : it.stateAt (n + m) = none := by
  induction m with
  | zero => exact h
  | succ m ih =>
    show it.stateAt ((n + m) + 1) = none
    rw [GcdExtendedIterator.stateAt, ih]
    rfl

theorem gcd_extended_iterator_term_aux :
    ∀ (k : ℕ) (s : GcdExtendedIteration), s.b.natAbs < k →
      ∃ (n : ℕ) (t : GcdExtendedIteration),
        GcdExtendedIterator.stateAt { i := some s } n = some t ∧ t.b = 0 ∧
          GcdExtendedIterator.stateAt { i := some s } (n + 1) = none := by
  intro k
  induction k with
  | zero => exact fun s hs => absurd hs (Nat.not_lt_zero _)
  | succ k ih =>
    intro s hs
    cases hstep : gcd_extended_iterator_step s with
    | none =>
      refine ⟨0, s, rfl, gcd_extended_iterator_step_none hstep, ?_⟩
      simp [GcdExtendedIterator.stateAt, hstep]
    | some t =>
      obtain ⟨n, u, h1, h2, h3⟩ :=
        ih t (by have := gcd_extended_iterator_step_measure hstep; omega)
      have hx : ({ i := Option.bind (some s) gcd_extended_iterator_step } : GcdExtendedIterator) =
          { i := some t } := by simp [hstep]
      refine ⟨n + 1, u, ?_, h2, ?_⟩
      · rw [← gcd_extended_iterator_stateAt_shift (some s) n, hx]
        exact h1
      · rw [← gcd_extended_iterator_stateAt_shift (some s) (n + 1), hx]
        exact h3

/-- The seed coefficients of the extended iterator are the identity matrix. -/
theorem gcd_extended_iteration_new_coeffs (a b : ℤ) :
    (GcdExtendedIteration.new a b).a0 = 1 ∧ (GcdExtendedIteration.new a b).a1 = 0 ∧
      (GcdExtendedIteration.new a b).b0 = 0 ∧ (GcdExtendedIteration.new a b).b1 = 1 := by
  unfold GcdExtendedIteration.new
  split_ifs <;> exact ⟨rfl, rfl, rfl, rfl⟩

/-- The `gcd` field of `gcd_extended` is that of `gcd_extended_noabs` on the
magnitudes: the sign flips leave it untouched. -/
theorem gcd_extended_gcd_field (a b : ℤ) :
    (gcd_extended a b).gcd = (gcd_extended_noabs |a| |b|).gcd := by
  unfold gcd_extended
  split_ifs <;> rfl

theorem gcd_extended_x0_field (a b : ℤ) :
    (gcd_extended a b).x0 =
      if a < 0 then -(gcd_extended_noabs |a| |b|).x0 else (gcd_extended_noabs |a| |b|).x0 := by
  unfold gcd_extended
  split_ifs <;> rfl

theorem gcd_extended_x1_field (a b : ℤ) :
    (gcd_extended a b).x1 =
      if a < 0 then -(gcd_extended_noabs |a| |b|).x1 else (gcd_extended_noabs |a| |b|).x1 := by
  unfold gcd_extended
  split_ifs <;> rfl

theorem gcd_extended_y0_field (a b : ℤ) :
    (gcd_extended a b).y0 =
      if b < 0 then -(gcd_extended_noabs |a| |b|).y0 else (gcd_extended_noabs |a| |b|).y0 := by
  unfold gcd_extended
  split_ifs <;> rfl

theorem gcd_extended_y1_field (a b : ℤ) :
    (gcd_extended a b).y1 =
      if b < 0 then -(gcd_extended_noabs |a| |b|).y1 else (gcd_extended_noabs |a| |b|).y1 := by
  unfold gcd_extended
  split_ifs <;> rfl

/-- Claim C1: for every pair of integers `a, b`, the result of
`gcd_extended a b` satisfies both Bezout identities:
`gcd = x0*a + y0*b` and `0 = x1*a + y1*b`. -/
theorem gcd_extended_bezout_identities (a b : ℤ) :
    (gcd_extended a b).gcd =
        (gcd_extended a b).x0 * a + (gcd_extended a b).y0 * b ∧
      0 = (gcd_extended a b).x1 * a + (gcd_extended a b).y1 * b := by
  obtain ⟨i1, i2⟩ := gcd_extended_noabs_identity |a| |b|
  set r := gcd_extended_noabs |a| |b| with hr
  rw [gcd_extended_gcd_field, gcd_extended_x0_field, gcd_extended_x1_field,
    gcd_extended_y0_field, gcd_extended_y1_field, ← hr]
  by_cases ha : a < 0
  · rw [if_pos ha, if_pos ha, abs_of_neg ha] at *
    by_cases hb : b < 0
    · rw [if_pos hb, if_pos hb, abs_of_neg hb] at *
      exact ⟨by linear_combination i1, by linear_combination i2⟩
    · rw [if_neg hb, if_neg hb, abs_of_nonneg (not_lt.mp hb)] at *
      exact ⟨by linear_combination i1, by linear_combination i2⟩
  · rw [if_neg ha, if_neg ha, abs_of_nonneg (not_lt.mp ha)] at *
    by_cases hb : b < 0
    · rw [if_pos hb, if_pos hb, abs_of_neg hb] at *
      exact ⟨by linear_combination i1, by linear_combination i2⟩
    · rw [if_neg hb, if_neg hb, abs_of_nonneg (not_lt.mp hb)] at *
      exact ⟨by linear_combination i1, by linear_combination i2⟩

/-- Claim C2: for every pair of integers `a, b`, the `gcd` field of
`gcd_extended a b` equals `gcd a b`: the coefficient-tracking extended
engine and the plain GCD engine agree on the greatest common divisor. -/
theorem gcd_extended_gcd_eq_gcd (a b : ℤ) :
    (gcd_extended a b).gcd = Dma.gcd a b := by
  rw [gcd_extended_gcd_field, gcd_extended_noabs_gcd, Dma.gcd]

/-- Claim C3: for every pair of integers `a, b`: if `a != 0` then
`divides a b` returns `(b mod a) == 0` (truncating remainder), and if
`a == 0` then `divides a b` returns `true` unconditionally. -/
theorem divides_spec (a b : ℤ) :
    (a ≠ 0 → (divides a b = true ↔ Int.tmod b a = 0)) ∧
      (a = 0 → divides a b = true) := by
  constructor
  · intro h
    simp [divides, h]
  · intro h
    simp [divides, h]

/-- Witness for C3 at concrete inputs `(5, 10)` and `(0, 7)`. -/
theorem divides_spec_witness :
    (((5 : ℤ) ≠ 0) ∧ (divides 5 10 = true ↔ Int.tmod 10 5 = 0)) ∧
      (((0 : ℤ) = 0) ∧ divides 0 7 = true) :=
  ⟨⟨by decide, (divides_spec 5 10).1 (by decide)⟩, ⟨rfl, (divides_spec 0 7).2 rfl⟩⟩

/-- Claim C4: `gcd a b` is always nonnegative, `gcd 0 0 = 0`, and
`gcd a 0 = |a|`. -/
theorem gcd_nonneg_zero_abs (a b : ℤ) :
    0 ≤ Dma.gcd a b ∧ Dma.gcd 0 0 = 0 ∧ Dma.gcd a 0 = |a| := by
  refine ⟨?_, ?_, ?_⟩
  · rw [gcd_eq_intGcd]
    exact Int.natCast_nonneg _
  · rw [gcd_eq_intGcd]
    simp [Int.gcd]
  · rw [gcd_eq_intGcd, Int.gcd]
    simp only [Int.natAbs_zero, Nat.gcd_zero_right]
    exact (Int.abs_eq_natAbs a).symm

/-- Claim C5: `lcm a 0 = 0` and `lcm 0 b = 0`; and for nonzero `a, b`,
`lcm a b * gcd a b = |a * b|` (over unbounded integers, where the
intermediate product cannot overflow). -/
theorem lcm_spec (a b : ℤ) :
    lcm a 0 = 0 ∧ lcm 0 b = 0 ∧
      (a ≠ 0 → b ≠ 0 → lcm a b * Dma.gcd a b = |a * b|) := by
  refine ⟨by simp [lcm], by simp [lcm], ?_⟩
  intro ha hb
  have hg : gcd_noabs |a| |b| = (Int.gcd a b : ℤ) := by
    rw [gcd_noabs_eq_gcd |a| |b| (abs_nonneg a) (abs_nonneg b), Int.gcd, Int.gcd]
    simp [Int.natAbs_abs]
  have hgz : (Int.gcd a b : ℤ) ≠ 0 := by
    simp only [ne_eq, Int.natCast_eq_zero]
    rw [Int.gcd_eq_zero_iff]
    tauto
  have hdvd : (Int.gcd a b : ℤ) ∣ |a| * |b| :=
    Dvd.dvd.mul_right ((dvd_abs _ _).mpr Int.gcd_dvd_left) _
  obtain ⟨k, hk⟩ := hdvd
  rw [lcm, if_neg (by tauto), hg, gcd_eq_intGcd, hk,
    Int.mul_tdiv_cancel_left k hgz, abs_mul, hk]
  ring

/-- Witness for C5 at the concrete nonzero inputs `(2, 3)`. -/
theorem lcm_spec_witness :
    lcm 2 0 = 0 ∧ lcm 0 3 = 0 ∧
      (((2 : ℤ) ≠ 0) ∧ ((3 : ℤ) ≠ 0) ∧ lcm 2 3 * Dma.gcd 2 3 = |(2 : ℤ) * 3|) := by
  obtain ⟨h1, h2, h3⟩ := lcm_spec (2 : ℤ) (3 : ℤ)
  exact ⟨h1, h2, by decide, by decide, h3 (by decide) (by decide)⟩

/-- Swap symmetry of `gcd_extended_noabs` when the two magnitudes differ. -/
theorem gcd_extended_noabs_swap (A B : ℤ) (h : A ≠ B) :
    (gcd_extended_noabs B A).x0 = (gcd_extended_noabs A B).y0 ∧
      (gcd_extended_noabs B A).y0 = (gcd_extended_noabs A B).x0 ∧
      (gcd_extended_noabs B A).x1 = (gcd_extended_noabs A B).y1 ∧
      (gcd_extended_noabs B A).y1 = (gcd_extended_noabs A B).x1 := by
  by_cases hA : A = 0
  · subst hA
    have hB : B ≠ 0 := fun hB => h hB.symm
    simp [gcd_extended_noabs, hB]
  · by_cases hB : B = 0
    · subst hB
      simp [gcd_extended_noabs, hA]
    · rcases lt_trichotomy A B with hAB | hAB | hAB
      · simp [gcd_extended_noabs, hA, hB, hAB, lt_asymm hAB]
      · exact absurd hAB h
      · simp [gcd_extended_noabs, hA, hB, hAB, lt_asymm hAB]

/-- Claim C6 counterexample: at `a = b = 1` the argument-swap symmetry
fails: `gcd_extended 1 1` has `(x0, y0) = (1, 0)` and `(x1, y1) = (-1, 1)`,
which are not symmetric under swapping. -/
theorem gcd_extended_swap_counterexample :
    ¬ ((gcd_extended 1 1).x0 = (gcd_extended 1 1).y0 ∧
        (gcd_extended 1 1).y0 = (gcd_extended 1 1).x0 ∧
        (gcd_extended 1 1).x1 = (gcd_extended 1 1).y1 ∧
        (gcd_extended 1 1).y1 = (gcd_extended 1 1).x1) := by
  decide

/-- Claim C6 (amended): the argument-swap symmetry of the extended GCD
holds whenever the two arguments have different magnitudes (and in the
all-zero case); it fails precisely when `|a| = |b| ≠ 0`. -/
theorem gcd_extended_swap_amended (a b : ℤ)
    (h : |a| ≠ |b| ∨ (a = 0 ∧ b = 0)) :
    (gcd_extended b a).x0 = (gcd_extended a b).y0 ∧
      (gcd_extended b a).y0 = (gcd_extended a b).x0 ∧
      (gcd_extended b a).x1 = (gcd_extended a b).y1 ∧
      (gcd_extended b a).y1 = (gcd_extended a b).x1 := by
  rcases h with h | ⟨ha, hb⟩
  · obtain ⟨e1, e2, e3, e4⟩ := gcd_extended_noabs_swap |a| |b| h
    rw [gcd_extended_x0_field b a, gcd_extended_y0_field a b,
      gcd_extended_y0_field b a, gcd_extended_x0_field a b,
      gcd_extended_x1_field b a, gcd_extended_y1_field a b,
      gcd_extended_y1_field b a, gcd_extended_x1_field a b,
      e1, e2, e3, e4]
    exact ⟨rfl, rfl, rfl, rfl⟩
  · subst ha
    subst hb
    decide

/-- Witness for the amended C6 at the concrete inputs `(6, 10)`. -/
theorem gcd_extended_swap_amended_witness :
    (|(6 : ℤ)| ≠ |(10 : ℤ)| ∨ ((6 : ℤ) = 0 ∧ (10 : ℤ) = 0)) ∧
      ((gcd_extended 10 6).x0 = (gcd_extended 6 10).y0 ∧
        (gcd_extended 10 6).y0 = (gcd_extended 6 10).x0 ∧
        (gcd_extended 10 6).x1 = (gcd_extended 6 10).y1 ∧
        (gcd_extended 10 6).y1 = (gcd_extended 6 10).x1) :=
  ⟨Or.inl (by decide), gcd_extended_swap_amended 6 10 (Or.inl (by decide))⟩

/-- Claim C7: every state yielded by the extended iterator constructed from
`(a, b)` satisfies `a = a0*A + b0*B` and `b = a1*A + b1*B`, where `(A, B)`
are the `a` and `b` of the first yielded (normalized) state. -/
theorem gcd_extended_iterator_invariant (a b : ℤ) (n : ℕ) (s : GcdExtendedIteration)
    (h : (GcdExtendedIterator.new a b).stateAt n = some s) :
    s.a = s.a0 * (GcdExtendedIteration.new a b).a + s.b0 * (GcdExtendedIteration.new a b).b ∧
      s.b = s.a1 * (GcdExtendedIteration.new a b).a + s.b1 * (GcdExtendedIteration.new a b).b := by
  induction n generalizing s with
  | zero =>
    have hs : s = GcdExtendedIteration.new a b :=
      (Option.some.inj (h : some (GcdExtendedIteration.new a b) = some s)).symm
    subst hs
    obtain ⟨c1, c2, c3, c4⟩ := gcd_extended_iteration_new_coeffs a b
    rw [c1, c2, c3, c4]
    constructor <;> ring
  | succ n ih =>
    rw [GcdExtendedIterator.stateAt] at h
    cases ht : (GcdExtendedIterator.new a b).stateAt n with
    | none =>
      rw [ht] at h
      exact absurd h (by simp)
    | some t =>
      rw [ht] at h
      have hstep : gcd_extended_iterator_step t = some s := h
      obtain ⟨ih1, ih2⟩ := ih t ht
      unfold gcd_extended_iterator_step at hstep
      split_ifs at hstep with hb0
      injection hstep with hs
      subst hs
      refine ⟨ih2, ?_⟩
      show t.a - t.b * Int.tdiv t.a t.b =
        (t.a0 - Int.tdiv t.a t.b * t.a1) * (GcdExtendedIteration.new a b).a +
          (t.b0 - Int.tdiv t.a t.b * t.b1) * (GcdExtendedIteration.new a b).b
      linear_combination ih1 - Int.tdiv t.a t.b * ih2

/-- Witness for C7: the second state of the extended iterator on `(6, 4)`. -/
theorem gcd_extended_iterator_invariant_witness :
    ((GcdExtendedIterator.new 6 4).stateAt 1 =
        some { a := 4, b := 2, a0 := 0, a1 := 1, b0 := 1, b1 := -1, q := 1 }) ∧
      ((4 : ℤ) = 0 * (GcdExtendedIteration.new 6 4).a + 1 * (GcdExtendedIteration.new 6 4).b ∧
        (2 : ℤ) = 1 * (GcdExtendedIteration.new 6 4).a + -1 * (GcdExtendedIteration.new 6 4).b) :=
  ⟨by decide,
    gcd_extended_iterator_invariant 6 4 1
      { a := 4, b := 2, a0 := 0, a1 := 1, b0 := 1, b1 := -1, q := 1 } (by decide)⟩

/-- Claim C8: from any pair `(a, b)`, the plain iterator yields only
finitely many states, its last yielded state has `b = 0`, and afterwards it
is exhausted forever; the same holds for the extended iterator. -/
theorem gcd_iterators_terminate (a b : ℤ) :
    (∃ (n : ℕ) (t : GcdIteration),
        (GcdIterator.new a b).stateAt n = some t ∧ t.b = 0 ∧
          ∀ m : ℕ, (GcdIterator.new a b).stateAt (n + 1 + m) = none) ∧
      (∃ (n : ℕ) (t : GcdExtendedIteration),
        (GcdExtendedIterator.new a b).stateAt n = some t ∧ t.b = 0 ∧
          ∀ m : ℕ, (GcdExtendedIterator.new a b).stateAt (n + 1 + m) = none) := by
  constructor
  · obtain ⟨n, t, h1, h2, h3⟩ :=
      gcd_iterator_term_aux (gcd_iteration_measure { a := a, b := b } + 1)
        { a := a, b := b } (Nat.lt_succ_self _)
    exact ⟨n, t, h1, h2, fun m => gcd_iterator_stateAt_none h3 m⟩
  · obtain ⟨n, t, h1, h2, h3⟩ :=
      gcd_extended_iterator_term_aux ((GcdExtendedIteration.new a b).b.natAbs + 1)
        (GcdExtendedIteration.new a b) (Nat.lt_succ_self _)
    exact ⟨n, t, h1, h2, fun m => gcd_extended_iterator_stateAt_none h3 m⟩

/-- Claim C9: the plain iterator constructed from `(-9, -12)` yields
exactly `(-9,-12), (9,12), (12,9), (9,3), (3,0)` in that order — the
sign-normalization step `(9,12)` is a visible yielded state — and is
exhausted afterwards. -/
theorem gcd_iterator_neg9_neg12 :
    (GcdIterator.new (-9) (-12)).stateAt 0 = some { a := -9, b := -12 } ∧
      (GcdIterator.new (-9) (-12)).stateAt 1 = some { a := 9, b := 12 } ∧
      (GcdIterator.new (-9) (-12)).stateAt 2 = some { a := 12, b := 9 } ∧
      (GcdIterator.new (-9) (-12)).stateAt 3 = some { a := 9, b := 3 } ∧
      (GcdIterator.new (-9) (-12)).stateAt 4 = some { a := 3, b := 0 } ∧
      ∀ m : ℕ, (GcdIterator.new (-9) (-12)).stateAt (5 + m) = none := by
  refine ⟨by decide, by decide, by decide, by decide, by decide, fun m => ?_⟩
  exact @gcd_iterator_stateAt_none (GcdIterator.new (-9) (-12)) 5 (by decide) m

/-- Claim C10: for every positive integer `a`, `gcd_extended a a` is
exactly `{gcd := a, x0 := 1, y0 := 0, x1 := -1, y1 := 1}` — the code fixes
the minimal `(-1, 1)`-style kernel for equal arguments. -/
theorem gcd_extended_equal_args (a : ℤ) (h : 0 < a) :
    gcd_extended a a = { gcd := a, x0 := 1, y0 := 0, x1 := -1, y1 := 1 } := by
  simp [gcd_extended, gcd_extended_noabs, abs_of_pos h, h.ne', lt_irrefl, not_lt.mpr h.le]

/-- Witness for C10 at `a = 2`. -/
theorem gcd_extended_equal_args_witness :
    (0 : ℤ) < 2 ∧
      gcd_extended 2 2 = { gcd := 2, x0 := 1, y0 := 0, x1 := -1, y1 := 1 } :=
  ⟨by decide, gcd_extended_equal_args 2 (by decide)⟩

/-- Witness for C1 at the concrete inputs `(5, 3)`. -/
theorem gcd_extended_bezout_identities_witness :
    (gcd_extended 5 3).gcd =
        (gcd_extended 5 3).x0 * 5 + (gcd_extended 5 3).y0 * 3 ∧
      0 = (gcd_extended 5 3).x1 * 5 + (gcd_extended 5 3).y1 * 3 :=
  gcd_extended_bezout_identities 5 3

/-- Witness for C2 at the concrete inputs `(6, 10)`. -/
theorem gcd_extended_gcd_eq_gcd_witness :
    (gcd_extended (-6) 10).gcd = Dma.gcd (-6) 10 :=
  gcd_extended_gcd_eq_gcd (-6) 10

/-- Witness for C4 at the concrete inputs `(-4, 6)`. -/
theorem gcd_nonneg_zero_abs_witness :
    0 ≤ Dma.gcd (-4) 6 ∧ Dma.gcd 0 0 = 0 ∧ Dma.gcd (-4) 0 = |(-4 : ℤ)| :=
  gcd_nonneg_zero_abs (-4) 6

/-- Witness for C8 at the concrete inputs `(9, -12)`. -/
theorem gcd_iterators_terminate_witness :
    (∃ (n : ℕ) (t : GcdIteration),
        (GcdIterator.new 9 (-12)).stateAt n = some t ∧ t.b = 0 ∧
          ∀ m : ℕ, (GcdIterator.new 9 (-12)).stateAt (n + 1 + m) = none) ∧
      (∃ (n : ℕ) (t : GcdExtendedIteration),
        (GcdExtendedIterator.new 9 (-12)).stateAt n = some t ∧ t.b = 0 ∧
          ∀ m : ℕ, (GcdExtendedIterator.new 9 (-12)).stateAt (n + 1 + m) = none) :=
  gcd_iterators_terminate 9 (-12)

end Dma
